/-
Verification of the crates-mirroring synchronization engine (`src/main.rs`).

The engine iterates over the package index; for each crate name it
performs a skip check (stored status `cloned`, or destination directory
already on disk), otherwise fetches metadata, records a pending entry,
attempts a clone, and records a terminal status.  SQLite writes inside
the loop are issued with `.ok()` (failures ignored); the skip-check read
is issued with `?` (failure aborts `main`).

Shallow embedding:
  * the SQLite table `crates (name PRIMARY KEY, repository, status)` is a
    function `String → Option Entry`;
  * the filesystem is the list of package names whose destination
    directory `output.join(name)` exists;
  * network and git behaviour is an `Oracle` (metadata fetch outcome,
    clone success, and whether a failed clone leaves a partial
    destination directory behind);
  * store read/write failures are a fault pattern indexed by loop
    position;
  * the run returns the final world, the list of externally visible
    events (metadata fetches and clone attempts), and whether the run
    completed (`false` = aborted by a failing skip-check read).
-/
import Mathlib

namespace Bugbot

/-- The five status tags stored in the `status` column. -/
inductive Status where
  | pending
  | cloned
  | failed
  | noRepo
  | metadataError
deriving DecidableEq

/-- One row of the `crates` table: nullable `repository`, `status`. -/
structure Entry where
  repository : Option String
  status : Status
deriving DecidableEq

/-- The `crates` table, keyed by primary key `name`. -/
abbrev Store := String → Option Entry

/-- Outcome of `client.get_crate(name)`: error, or crate data with an
optional repository URL. -/
inductive FetchOutcome where
  | err
  | ok (repository : Option String)
deriving DecidableEq

/-- Externally visible actions of one run: a metadata request for a
name, or a clone attempt for a name from a URL. -/
inductive Event where
  | fetch (name : String)
  | cloneAttempt (name : String) (url : String)
deriving DecidableEq

/-- The package name an event concerns. -/
def eventName : Event → String
  | Event.fetch n => n
  | Event.cloneAttempt n _ => n

/-- Environment oracle: metadata outcome per name, clone success per
(url, name), and whether a failed clone leaves the destination
directory behind. -/
structure Oracle where
  fetch : String → FetchOutcome
  cloneOk : String → String → Bool
  cloneLeftover : String → String → Bool

/-- Store faults for one loop iteration: the skip-check read fails, the
pending upsert fails, the terminal status write fails. -/
structure Faults where
  readFail : Bool
  pendingFail : Bool
  terminalFail : Bool

/-- No store fault. -/
def noFault : Faults := ⟨false, false, false⟩

/-- Fault pattern with no store fault at any position. -/
def noFaults : Nat → Faults := fun _ => noFault

/-- Mutable world: the `crates` table and the set of destination
directories present on disk (as the list of their package names). -/
structure World where
  store : Store
  fs : List String

/-- `INSERT ... VALUES (?1, ?2, 'pending') ON CONFLICT(name) DO UPDATE
SET repository = excluded.repository, status = 'pending'`. -/
def upsertPending (s : Store) (n : String) (url : String) : Store :=
  fun m => if m = n then some ⟨some url, Status.pending⟩ else s m

/-- `UPDATE crates SET status = ?2 WHERE name = ?1`: touches only an
existing row, creates nothing. -/
def updateStatus (s : Store) (n : String) (st : Status) : Store :=
  fun m => if m = n then (s n).map (fun e => ⟨e.repository, st⟩) else s m

/-- `INSERT ... VALUES (?1, NULL, st) ON CONFLICT(name) DO UPDATE SET
status = st`: creates the row with NULL repository, or keeps the
existing repository and overwrites the status. -/
def upsertStatusKeepRepo (s : Store) (n : String) (st : Status) : Store :=
  fun m =>
    if m = n then
      some (match s n with
        | some e => ⟨e.repository, st⟩
        | none => ⟨none, st⟩)
    else s m

/-- The `already_cloned` skip-check read:
`SELECT status FROM crates WHERE name = ?1`, compared with `"cloned"`,
absent row giving `false`. -/
def clonedB (s : Store) (n : String) : Bool :=
  match s n with
  | some e => decide (e.status = Status.cloned)
  | none => false

/-- The skip condition `already_cloned || dest.exists()`. -/
def skipB (w : World) (n : String) : Bool :=
  clonedB w.store n || decide (n ∈ w.fs)

/-- The status write after a metadata outcome (no-repo or fetch error),
issued with `.ok()`: dropped when the write faults. -/
def terminalWrite (fl : Faults) (s : Store) (n : String) (st : Status) : Store :=
  if fl.terminalFail then s else upsertStatusKeepRepo s n st

/-- The pending upsert followed by the post-clone status `UPDATE`, both
issued with `.ok()`: each is dropped when its write faults. -/
def pendingThen (fl : Faults) (s : Store) (n : String) (url : String)
    (st : Status) : Store :=
  if fl.terminalFail then
    (if fl.pendingFail then s else upsertPending s n url)
  else
    updateStatus (if fl.pendingFail then s else upsertPending s n url) n st

/-- One iteration of the main loop for package `n` (the skip-check read
already having succeeded): skip, or fetch metadata and dispatch on the
outcome, attempting a clone when a repository URL is present.  The
resulting world is paired with the events the iteration emitted. -/
def stepPackage (o : Oracle) (fl : Faults) (w : World) (n : String) :
    World × List Event :=
  if skipB w n then (w, [])
  else
    match o.fetch n with
    | FetchOutcome.err =>
        ({ w with store := terminalWrite fl w.store n Status.metadataError },
         [Event.fetch n])
    | FetchOutcome.ok none =>
        ({ w with store := terminalWrite fl w.store n Status.noRepo },
         [Event.fetch n])
    | FetchOutcome.ok (some url) =>
        if o.cloneOk url n then
          ({ store := pendingThen fl w.store n url Status.cloned,
             fs := w.fs ++ [n] },
           [Event.fetch n, Event.cloneAttempt n url])
        else
          ({ store := pendingThen fl w.store n url Status.failed,
             fs := if o.cloneLeftover url n then w.fs ++ [n] else w.fs },
           [Event.fetch n, Event.cloneAttempt n url])

/-- The main loop over the remaining index, carrying the loop position
for the fault pattern.  A failing skip-check read (`?` in the source)
aborts the run: the result flag is `false` and no further package is
processed. -/
def runAux (o : Oracle) (fl : Nat → Faults) :
    List String → Nat → World → World × List Event × Bool
  | [], _, w => (w, [], true)
  | n :: rest, i, w =>
    if (fl i).readFail then (w, [], false)
    else
      let p := stepPackage o (fl i) w n
      let q := runAux o fl rest (i + 1) p.1
      (q.1, p.2 ++ q.2.1, q.2.2)

/-- One whole engine run over the index. -/
def run (o : Oracle) (fl : Nat → Faults) (index : List String) (w : World) :
    World × List Event × Bool :=
  runAux o fl index 0 w

/-- The empty world: empty table, no destination directory. -/
def emptyWorld : World := ⟨fun _ => none, []⟩

/-- Example oracle: `"a"` has repository `"u"`, cloning succeeds. -/
def oracleOkClone : Oracle :=
  ⟨fun _ => FetchOutcome.ok (some "u"), fun _ _ => true, fun _ _ => false⟩

/-- Example oracle: every metadata fetch fails. -/
def oracleFetchErr : Oracle :=
  ⟨fun _ => FetchOutcome.err, fun _ _ => true, fun _ _ => false⟩

/-- Example oracle: metadata reports no repository URL. -/
def oracleNoUrl : Oracle :=
  ⟨fun _ => FetchOutcome.ok none, fun _ _ => true, fun _ _ => false⟩

/-- Example oracle: clone of `"u"` fails and leaves a partial
destination directory behind. -/
def oracleFailLeftover : Oracle :=
  ⟨fun _ => FetchOutcome.ok (some "u"), fun _ _ => false, fun _ _ => true⟩

/-- Fault pattern: the very first skip-check read fails. -/
def faultsReadFail0 : Nat → Faults :=
  fun i => if i = 0 then ⟨true, false, false⟩ else noFault

/-- Fault pattern: every pending upsert fails, all else succeeds. -/
def faultsPendingFail : Nat → Faults := fun _ => ⟨false, true, false⟩

/-- Fault pattern: every store write fails, reads succeed. -/
def faultsAllWritesFail : Nat → Faults := fun _ => ⟨false, true, true⟩

/-- Example world whose store already records `"a"` as cloned. -/
def worldCloneda : World :=
  ⟨fun m => if m = "a" then some ⟨some "u", Status.cloned⟩ else none, []⟩

/-- Example store with a single pending row for `"a"`. -/
def storePendinga : Store :=
  fun m => if m = "a" then some ⟨some "u", Status.pending⟩ else none

/-- Example world whose store records `"a"` as failed, with no
destination directory on disk. -/
def worldFaileda : World :=
  ⟨fun m => if m = "a" then some ⟨some "u", Status.failed⟩ else none, []⟩

/-- A package is stable in a world when re-processing it cannot change
the store or the filesystem: it is skipped, or the fixed oracle
reproduces exactly the terminal outcome already recorded for it. -/
def StableP (o : Oracle) (w : World) (n : String) : Prop :=
  skipB w n = true
  ∨ (o.fetch n = FetchOutcome.err
      ∧ ∃ e, w.store n = some e ∧ e.status = Status.metadataError)
  ∨ (o.fetch n = FetchOutcome.ok none
      ∧ ∃ e, w.store n = some e ∧ e.status = Status.noRepo)
  ∨ (∃ url, o.fetch n = FetchOutcome.ok (some url)
      ∧ o.cloneOk url n = false ∧ o.cloneLeftover url n = false
      ∧ w.store n = some ⟨some url, Status.failed⟩)

/-- Two worlds that make exactly the same skip decisions and hold the
same destination directories. -/
def SkipEq (w wn : World) : Prop :=
  w.fs = wn.fs ∧ ∀ m, skipB w m = skipB wn m

/-- A no-repo outcome is recorded for `n` and no destination directory
for `n` exists. -/
def NoRepoRecorded (w : World) (n : String) : Prop :=
  (∃ e, w.store n = some e ∧ e.status = Status.noRepo) ∧ n ∉ w.fs

/-- The spec's store invariant: a row whose status is `pending` or
`cloned` has a non-NULL `repository`. -/
def RepoInv (s : Store) : Prop :=
  ∀ n e, s n = some e →
    (e.status = Status.pending ∨ e.status = Status.cloned) →
    e.repository ≠ none

/-- Modelled from the spec: the inter-request rate limiter of the
metadata client (it lives in the external `crates_io_api` crate, not
under `src/`).  Request `i` is issued at time `arrive i`; the limiter
delays it so that its start is never earlier than the previous
request's start plus the configured delay.  `startTime delay arrive i`
is the instant request `i` actually starts. -/
def startTime (delay : Nat) (arrive : Nat → Nat) : Nat → Nat
  | 0 => arrive 0
  | i + 1 => max (arrive (i + 1)) (startTime delay arrive i + delay)

/-! ### Pointwise facts about the three SQL write operations -/

theorem upsertPending_self (s : Store) (n url : String) :
    upsertPending s n url n = some ⟨some url, Status.pending⟩ := by
  simp [upsertPending]

theorem upsertPending_ne (s : Store) (n url m : String) (h : m ≠ n) :
    upsertPending s n url m = s m := by
  simp [upsertPending, h]

theorem updateStatus_self (s : Store) (n : String) (st : Status) :
    updateStatus s n st n = (s n).map (fun e => ⟨e.repository, st⟩) := by
  simp [updateStatus]

theorem updateStatus_ne (s : Store) (n : String) (st : Status) (m : String)
    (h : m ≠ n) : updateStatus s n st m = s m := by
  simp [updateStatus, h]

theorem upsertStatusKeepRepo_self (s : Store) (n : String) (st : Status) :
    upsertStatusKeepRepo s n st n
      = some (match s n with
          | some e => ⟨e.repository, st⟩
          | none => ⟨none, st⟩) := by
  simp [upsertStatusKeepRepo]

theorem upsertStatusKeepRepo_ne (s : Store) (n : String) (st : Status)
    (m : String) (h : m ≠ n) : upsertStatusKeepRepo s n st m = s m := by
  simp [upsertStatusKeepRepo, h]

theorem terminalWrite_ne (fl : Faults) (s : Store) (n : String) (st : Status)
    (m : String) (h : m ≠ n) : terminalWrite fl s n st m = s m := by
  unfold terminalWrite
  split
  · rfl
  · exact upsertStatusKeepRepo_ne s n st m h

theorem pendingThen_ne (fl : Faults) (s : Store) (n url : String) (st : Status)
    (m : String) (h : m ≠ n) : pendingThen fl s n url st m = s m := by
  unfold pendingThen
  split <;> split <;>
    simp [updateStatus_ne, upsertPending_ne, h]

/-! ### The skip condition -/

theorem clonedB_true_iff (s : Store) (n : String) :
    clonedB s n = true ↔ ∃ e, s n = some e ∧ e.status = Status.cloned := by
  unfold clonedB
  cases h : s n <;> simp

theorem clonedB_eq_false_iff (s : Store) (n : String) :
    clonedB s n = false ↔ ∀ e, s n = some e → e.status ≠ Status.cloned := by
  unfold clonedB
  cases h : s n <;> simp

theorem skipB_eq_true_iff (w : World) (n : String) :
    skipB w n = true ↔ clonedB w.store n = true ∨ n ∈ w.fs := by
  simp [skipB]

theorem skipB_eq_false_iff (w : World) (n : String) :
    skipB w n = false ↔ clonedB w.store n = false ∧ n ∉ w.fs := by
  simp [skipB]

/-! ### Branch equations for one loop iteration -/

theorem step_skip (o : Oracle) (fl : Faults) (w : World) (n : String)
    (h : skipB w n = true) : stepPackage o fl w n = (w, []) := by
  simp [stepPackage, h]

theorem step_err (o : Oracle) (fl : Faults) (w : World) (n : String)
    (h : skipB w n = false) (hf : o.fetch n = FetchOutcome.err) :
    stepPackage o fl w n
      = ({ w with store := terminalWrite fl w.store n Status.metadataError },
         [Event.fetch n]) := by
  simp [stepPackage, h, hf]

theorem step_noUrl (o : Oracle) (fl : Faults) (w : World) (n : String)
    (h : skipB w n = false) (hf : o.fetch n = FetchOutcome.ok none) :
    stepPackage o fl w n
      = ({ w with store := terminalWrite fl w.store n Status.noRepo },
         [Event.fetch n]) := by
  simp [stepPackage, h, hf]

theorem step_cloneOk (o : Oracle) (fl : Faults) (w : World) (n url : String)
    (h : skipB w n = false) (hf : o.fetch n = FetchOutcome.ok (some url))
    (hc : o.cloneOk url n = true) :
    stepPackage o fl w n
      = ({ store := pendingThen fl w.store n url Status.cloned,
           fs := w.fs ++ [n] },
         [Event.fetch n, Event.cloneAttempt n url]) := by
  simp [stepPackage, h, hf, hc]

theorem step_cloneFail (o : Oracle) (fl : Faults) (w : World) (n url : String)
    (h : skipB w n = false) (hf : o.fetch n = FetchOutcome.ok (some url))
    (hc : o.cloneOk url n = false) :
    stepPackage o fl w n
      = ({ store := pendingThen fl w.store n url Status.failed,
           fs := if o.cloneLeftover url n then w.fs ++ [n] else w.fs },
         [Event.fetch n, Event.cloneAttempt n url]) := by
  simp [stepPackage, h, hf, hc]

/-! ### Frame facts for one loop iteration -/

theorem step_store_ne (o : Oracle) (fl : Faults) (w : World) (n m : String)
    (h : m ≠ n) : (stepPackage o fl w n).1.store m = w.store m := by
  by_cases hsk : skipB w n
  · rw [step_skip o fl w n hsk]
  · rw [Bool.not_eq_true] at hsk
    cases hf : o.fetch n with
    | err => rw [step_err o fl w n hsk hf]; exact terminalWrite_ne fl w.store n _ m h
    | ok u =>
      cases u with
      | none => rw [step_noUrl o fl w n hsk hf]; exact terminalWrite_ne fl w.store n _ m h
      | some url =>
        cases hc : o.cloneOk url n with
        | true => rw [step_cloneOk o fl w n url hsk hf hc]; exact pendingThen_ne fl w.store n url _ m h
        | false => rw [step_cloneFail o fl w n url hsk hf hc]; exact pendingThen_ne fl w.store n url _ m h

theorem step_fs_cases (o : Oracle) (fl : Faults) (w : World) (n : String) :
    (stepPackage o fl w n).1.fs = w.fs
    ∨ (stepPackage o fl w n).1.fs = w.fs ++ [n] := by
  by_cases hsk : skipB w n
  · left; rw [step_skip o fl w n hsk]
  · rw [Bool.not_eq_true] at hsk
    cases hf : o.fetch n with
    | err => left; rw [step_err o fl w n hsk hf]
    | ok u =>
      cases u with
      | none => left; rw [step_noUrl o fl w n hsk hf]
      | some url =>
        cases hc : o.cloneOk url n with
        | true => right; rw [step_cloneOk o fl w n url hsk hf hc]
        | false =>
          rw [step_cloneFail o fl w n url hsk hf hc]
          cases hl : o.cloneLeftover url n <;> simp [hl]

theorem step_fs_mono (o : Oracle) (fl : Faults) (w : World) (n m : String)
    (h : m ∈ w.fs) : m ∈ (stepPackage o fl w n).1.fs := by
  rcases step_fs_cases o fl w n with hc | hc <;> rw [hc] <;> simp [h]

theorem step_fs_sub (o : Oracle) (fl : Faults) (w : World) (n m : String)
    (h : m ∈ (stepPackage o fl w n).1.fs) : m ∈ w.fs ∨ m = n := by
  rcases step_fs_cases o fl w n with hc | hc <;> rw [hc] at h
  · exact Or.inl h
  · simpa using h

theorem step_events_name (o : Oracle) (fl : Faults) (w : World) (n : String) :
    ∀ e ∈ (stepPackage o fl w n).2, eventName e = n := by
  by_cases hsk : skipB w n
  · rw [step_skip o fl w n hsk]; simp
  · rw [Bool.not_eq_true] at hsk
    cases hf : o.fetch n with
    | err => rw [step_err o fl w n hsk hf]; simp [eventName]
    | ok u =>
      cases u with
      | none => rw [step_noUrl o fl w n hsk hf]; simp [eventName]
      | some url =>
        cases hc : o.cloneOk url n with
        | true =>
          rw [step_cloneOk o fl w n url hsk hf hc]
          simp [eventName]
        | false =>
          rw [step_cloneFail o fl w n url hsk hf hc]
          simp [eventName]

theorem step_clonedB_pres (o : Oracle) (fl : Faults) (w : World) (n m : String)
    (h : clonedB w.store m = true) :
    clonedB (stepPackage o fl w n).1.store m = true := by
  by_cases hmn : m = n
  · subst hmn
    have hsk : skipB w m = true := (skipB_eq_true_iff w m).mpr (Or.inl h)
    rw [step_skip o fl w m hsk]
    exact h
  · rw [clonedB_true_iff] at h ⊢
    rw [step_store_ne o fl w n m hmn]
    exact h

theorem step_skipB_pres (o : Oracle) (fl : Faults) (w : World) (n m : String)
    (h : skipB w m = true) : skipB (stepPackage o fl w n).1 m = true := by
  rw [skipB_eq_true_iff] at h ⊢
  rcases h with h | h
  · exact Or.inl (step_clonedB_pres o fl w n m h)
  · exact Or.inr (step_fs_mono o fl w n m h)

theorem clonedB_congr (s t : Store) (m : String) (h : s m = t m) :
    clonedB s m = clonedB t m := by
  unfold clonedB
  rw [h]

theorem step_skipB_ne (o : Oracle) (fl : Faults) (w : World) (n m : String)
    (h : m ≠ n) : skipB (stepPackage o fl w n).1 m = skipB w m := by
  unfold skipB
  rw [clonedB_congr _ w.store m (step_store_ne o fl w n m h)]
  rcases step_fs_cases o fl w n with hc | hc
  · rw [hc]
  · rw [hc]
    simp [List.mem_append, h]

/-! ### Unfolding the main loop -/

theorem runAux_nil (o : Oracle) (fl : Nat → Faults) (i : Nat) (w : World) :
    runAux o fl [] i w = (w, [], true) := rfl

theorem runAux_cons_abort (o : Oracle) (fl : Nat → Faults) (n : String)
    (rest : List String) (i : Nat) (w : World) (h : (fl i).readFail = true) :
    runAux o fl (n :: rest) i w = (w, [], false) := by
  simp [runAux, h]

theorem runAux_cons_world (o : Oracle) (fl : Nat → Faults) (n : String)
    (rest : List String) (i : Nat) (w : World) (h : (fl i).readFail = false) :
    (runAux o fl (n :: rest) i w).1
      = (runAux o fl rest (i + 1) (stepPackage o (fl i) w n).1).1 := by
  simp [runAux, h]

theorem runAux_cons_events (o : Oracle) (fl : Nat → Faults) (n : String)
    (rest : List String) (i : Nat) (w : World) (h : (fl i).readFail = false) :
    (runAux o fl (n :: rest) i w).2.1
      = (stepPackage o (fl i) w n).2
        ++ (runAux o fl rest (i + 1) (stepPackage o (fl i) w n).1).2.1 := by
  simp [runAux, h]

theorem runAux_cons_flag (o : Oracle) (fl : Nat → Faults) (n : String)
    (rest : List String) (i : Nat) (w : World) (h : (fl i).readFail = false) :
    (runAux o fl (n :: rest) i w).2.2
      = (runAux o fl rest (i + 1) (stepPackage o (fl i) w n).1).2.2 := by
  simp [runAux, h]

theorem runAux_completes (o : Oracle) (fl : Nat → Faults)
    (hfl : ∀ j, (fl j).readFail = false) :
    ∀ (l : List String) (i : Nat) (w : World),
      (runAux o fl l i w).2.2 = true := by
  intro l
  induction l with
  | nil => intro i w; rfl
  | cons n rest ih =>
    intro i w
    rw [runAux_cons_flag o fl n rest i w (hfl i)]
    exact ih (i + 1) _

/-- A package whose skip condition holds is untouched by the whole
run: its row is unchanged, its skip condition still holds afterwards,
and no event of the run concerns it. -/
theorem runAux_skipB_frame (o : Oracle) (fl : Nat → Faults) (n : String) :
    ∀ (l : List String) (i : Nat) (w : World), skipB w n = true →
      (runAux o fl l i w).1.store n = w.store n
      ∧ skipB (runAux o fl l i w).1 n = true
      ∧ ∀ e ∈ (runAux o fl l i w).2.1, eventName e ≠ n := by
  intro l
  induction l with
  | nil => intro i w h; exact ⟨rfl, h, by simp [runAux_nil]⟩
  | cons m rest ih =>
    intro i w h
    cases hr : (fl i).readFail with
    | true =>
      rw [runAux_cons_abort o fl m rest i w hr]
      exact ⟨rfl, h, by simp⟩
    | false =>
      rw [runAux_cons_world o fl m rest i w hr,
        runAux_cons_events o fl m rest i w hr]
      have hpres := step_skipB_pres o (fl i) w m n h
      have hst : (stepPackage o (fl i) w m).1.store n = w.store n := by
        by_cases hmn : n = m
        · subst hmn
          rw [step_skip o (fl i) w n h]
        · exact step_store_ne o (fl i) w m n hmn
      obtain ⟨ih1, ih2, ih3⟩ := ih (i + 1) (stepPackage o (fl i) w m).1 hpres
      refine ⟨ih1.trans hst, ih2, ?_⟩
      intro e he
      rcases List.mem_append.mp he with he | he
      · by_cases hmn : n = m
        · subst hmn
          rw [step_skip o (fl i) w n h] at he
          simp at he
        · have hname := step_events_name o (fl i) w m e he
          rw [hname]
          exact fun q => hmn q.symm
      · exact ih3 e he

/-! ### Stability: idempotence machinery -/

theorem terminalWrite_ok (fl : Faults) (ht : fl.terminalFail = false)
    (s : Store) (n : String) (st : Status) :
    terminalWrite fl s n st = upsertStatusKeepRepo s n st := by
  simp [terminalWrite, ht]

theorem pendingThen_ok (fl : Faults) (hp : fl.pendingFail = false)
    (ht : fl.terminalFail = false) (s : Store) (n url : String) (st : Status) :
    pendingThen fl s n url st = updateStatus (upsertPending s n url) n st := by
  simp [pendingThen, hp, ht]

theorem pendingThen_ok_self (fl : Faults) (hp : fl.pendingFail = false)
    (ht : fl.terminalFail = false) (s : Store) (n url : String) (st : Status) :
    pendingThen fl s n url st n = some ⟨some url, st⟩ := by
  rw [pendingThen_ok fl hp ht, updateStatus_self, upsertPending_self]
  rfl

theorem upsertStatusKeepRepo_self_status (s : Store) (n : String) (st : Status) :
    ∃ e, upsertStatusKeepRepo s n st n = some e ∧ e.status = st := by
  rw [upsertStatusKeepRepo_self]
  cases s n
  · exact ⟨_, rfl, rfl⟩
  · exact ⟨_, rfl, rfl⟩

theorem step_stabilizes (o : Oracle) (fl : Faults) (w : World) (n : String)
    (hp : fl.pendingFail = false) (ht : fl.terminalFail = false) :
    StableP o (stepPackage o fl w n).1 n := by
  by_cases hsk : skipB w n
  · rw [step_skip o fl w n hsk]
    exact Or.inl hsk
  · rw [Bool.not_eq_true] at hsk
    cases hf : o.fetch n with
    | err =>
      rw [step_err o fl w n hsk hf]
      refine Or.inr (Or.inl ⟨hf, ?_⟩)
      rw [terminalWrite_ok fl ht]
      exact upsertStatusKeepRepo_self_status w.store n _
    | ok u =>
      cases u with
      | none =>
        rw [step_noUrl o fl w n hsk hf]
        refine Or.inr (Or.inr (Or.inl ⟨hf, ?_⟩))
        rw [terminalWrite_ok fl ht]
        exact upsertStatusKeepRepo_self_status w.store n _
      | some url =>
        cases hc : o.cloneOk url n with
        | true =>
          rw [step_cloneOk o fl w n url hsk hf hc]
          refine Or.inl ((skipB_eq_true_iff _ n).mpr (Or.inr ?_))
          simp
        | false =>
          cases hl : o.cloneLeftover url n with
          | true =>
            rw [step_cloneFail o fl w n url hsk hf hc]
            refine Or.inl ((skipB_eq_true_iff _ n).mpr (Or.inr ?_))
            simp [hl]
          | false =>
            rw [step_cloneFail o fl w n url hsk hf hc]
            exact Or.inr (Or.inr (Or.inr
              ⟨url, hf, hc, hl, pendingThen_ok_self fl hp ht w.store n url _⟩))

theorem step_pres_stable (o : Oracle) (fl : Faults) (w : World) (n m : String)
    (hp : fl.pendingFail = false) (ht : fl.terminalFail = false)
    (h : StableP o w n) : StableP o (stepPackage o fl w m).1 n := by
  by_cases hmn : m = n
  · subst hmn
    exact step_stabilizes o fl w m hp ht
  · have hne : n ≠ m := fun q => hmn q.symm
    have hst := step_store_ne o fl w m n hne
    rcases h with h | h | h | h
    · exact Or.inl (step_skipB_pres o fl w m n h)
    · exact Or.inr (Or.inl ⟨h.1, by rw [hst]; exact h.2⟩)
    · exact Or.inr (Or.inr (Or.inl ⟨h.1, by rw [hst]; exact h.2⟩))
    · obtain ⟨url, h1, h2, h3, h4⟩ := h
      exact Or.inr (Or.inr (Or.inr ⟨url, h1, h2, h3, by rw [hst]; exact h4⟩))

/-- Re-processing a stable package changes neither the store nor the
filesystem (it may still emit fetch and clone-attempt events). -/
theorem step_inert (o : Oracle) (w : World) (n : String)
    (h : StableP o w n) : (stepPackage o noFault w n).1 = w := by
  by_cases hsk : skipB w n
  · rw [step_skip o noFault w n hsk]
  · rw [Bool.not_eq_true] at hsk
    rcases h with h | h | h | h
    · rw [h] at hsk; cases hsk
    · obtain ⟨hf, e, he, hst⟩ := h
      obtain ⟨r, est⟩ := e
      have hst' : est = Status.metadataError := hst
      subst hst'
      rw [step_err o noFault w n hsk hf]
      have hw : terminalWrite noFault w.store n Status.metadataError = w.store := by
        funext m
        by_cases hmn : m = n
        · subst hmn
          rw [terminalWrite_ok noFault rfl, upsertStatusKeepRepo_self, he]
        · exact terminalWrite_ne noFault w.store n _ m hmn
      rw [hw]
    · obtain ⟨hf, e, he, hst⟩ := h
      obtain ⟨r, est⟩ := e
      have hst' : est = Status.noRepo := hst
      subst hst'
      rw [step_noUrl o noFault w n hsk hf]
      have hw : terminalWrite noFault w.store n Status.noRepo = w.store := by
        funext m
        by_cases hmn : m = n
        · subst hmn
          rw [terminalWrite_ok noFault rfl, upsertStatusKeepRepo_self, he]
        · exact terminalWrite_ne noFault w.store n _ m hmn
      rw [hw]
    · obtain ⟨url, hf, hc, hl, hst⟩ := h
      rw [step_cloneFail o noFault w n url hsk hf hc]
      have hsto : pendingThen noFault w.store n url Status.failed = w.store := by
        funext m
        by_cases hmn : m = n
        · subst hmn
          rw [pendingThen_ok_self noFault rfl rfl, hst]
        · exact pendingThen_ne noFault w.store n url _ m hmn
      rw [hsto, hl]
      rfl

theorem runAux_pres_stable (o : Oracle) (n : String) :
    ∀ (l : List String) (i : Nat) (w : World), StableP o w n →
      StableP o (runAux o noFaults l i w).1 n := by
  intro l
  induction l with
  | nil => intro i w h; exact h
  | cons m rest ih =>
    intro i w h
    rw [runAux_cons_world o noFaults m rest i w rfl]
    exact ih (i + 1) _ (step_pres_stable o noFault w n m rfl rfl h)

/-- After a fault-free run, every package of the index is stable. -/
theorem runAux_stable_all (o : Oracle) :
    ∀ (l : List String) (i : Nat) (w : World) (n : String), n ∈ l →
      StableP o (runAux o noFaults l i w).1 n := by
  intro l
  induction l with
  | nil => intro i w n h; cases h
  | cons m rest ih =>
    intro i w n h
    rw [runAux_cons_world o noFaults m rest i w rfl]
    rcases List.mem_cons.mp h with h | h
    · subst h
      exact runAux_pres_stable o n rest (i + 1) _
        (step_stabilizes o noFault w n rfl rfl)
    · exact ih (i + 1) _ n h

/-- Running over a world in which every indexed package is stable
leaves the world unchanged, and every event emitted belongs to a
package whose skip condition does not hold. -/
theorem runAux_inert (o : Oracle) :
    ∀ (l : List String) (i : Nat) (w : World), (∀ m ∈ l, StableP o w m) →
      (runAux o noFaults l i w).1 = w
      ∧ ∀ e ∈ (runAux o noFaults l i w).2.1, skipB w (eventName e) = false := by
  intro l
  induction l with
  | nil => intro i w _; exact ⟨rfl, by simp [runAux_nil]⟩
  | cons m rest ih =>
    intro i w h
    have hm := h m (List.mem_cons_self m rest)
    have hw : (stepPackage o (noFaults i) w m).1 = w := step_inert o w m hm
    rw [runAux_cons_world o noFaults m rest i w rfl,
      runAux_cons_events o noFaults m rest i w rfl, hw]
    obtain ⟨ih1, ih2⟩ := ih (i + 1) w (fun x hx => h x (List.mem_cons_of_mem m hx))
    refine ⟨ih1, ?_⟩
    intro e he
    rcases List.mem_append.mp he with he | he
    · have hname := step_events_name o (noFaults i) w m e he
      rw [hname]
      by_cases hsk : skipB w m
      · rw [step_skip o (noFaults i) w m hsk] at he
        cases he
      · rwa [Bool.not_eq_true] at hsk
    · exact ih2 e he

/-! ### Write failures do not change the control flow -/

theorem clonedB_upsertStatusKeepRepo (s : Store) (n : String) (st : Status)
    (hst : st ≠ Status.cloned) :
    clonedB (upsertStatusKeepRepo s n st) n = false := by
  unfold clonedB
  rw [upsertStatusKeepRepo_self]
  cases s n <;> simp [hst]

theorem clonedB_updateStatus (s : Store) (n : String) (st : Status)
    (hst : st ≠ Status.cloned) :
    clonedB (updateStatus s n st) n = false := by
  unfold clonedB
  rw [updateStatus_self]
  cases s n <;> simp [hst]

theorem clonedB_upsertPending (s : Store) (n url : String) :
    clonedB (upsertPending s n url) n = false := by
  unfold clonedB
  rw [upsertPending_self]
  simp

theorem clonedB_terminalWrite (fl : Faults) (s : Store) (n : String)
    (st : Status) (hst : st ≠ Status.cloned) (h : clonedB s n = false) :
    clonedB (terminalWrite fl s n st) n = false := by
  unfold terminalWrite
  split
  · exact h
  · exact clonedB_upsertStatusKeepRepo s n st hst

theorem clonedB_pendingThen (fl : Faults) (s : Store) (n url : String)
    (st : Status) (hst : st ≠ Status.cloned) (h : clonedB s n = false) :
    clonedB (pendingThen fl s n url st) n = false := by
  unfold pendingThen
  split
  · split
    · exact h
    · exact clonedB_upsertPending s n url
  · exact clonedB_updateStatus _ n st hst

/-- One iteration with arbitrary write faults emits the same events,
leaves the same destination directories, and produces the same skip
decisions as the fault-free iteration, as long as both start from
worlds that agree on skip decisions and directories. -/
theorem step_par (o : Oracle) (fl' : Faults) (n : String) (w wn : World)
    (hfs : w.fs = wn.fs) (hsk : ∀ m, skipB w m = skipB wn m) :
    (stepPackage o fl' w n).2 = (stepPackage o noFault wn n).2
    ∧ (stepPackage o fl' w n).1.fs = (stepPackage o noFault wn n).1.fs
    ∧ ∀ m, skipB (stepPackage o fl' w n).1 m
        = skipB (stepPackage o noFault wn n).1 m := by
  cases hskn : skipB wn n with
  | true =>
    have hw : skipB w n = true := (hsk n).trans hskn
    rw [step_skip o fl' w n hw, step_skip o noFault wn n hskn]
    exact ⟨rfl, hfs, hsk⟩
  | false =>
    have hw : skipB w n = false := (hsk n).trans hskn
    have hwc : clonedB w.store n = false := ((skipB_eq_false_iff w n).mp hw).1
    have hwm : n ∉ w.fs := ((skipB_eq_false_iff w n).mp hw).2
    have hnc : clonedB wn.store n = false := ((skipB_eq_false_iff wn n).mp hskn).1
    have hnm : n ∉ wn.fs := ((skipB_eq_false_iff wn n).mp hskn).2
    have hmn_side : ∀ m, m ≠ n →
        skipB (stepPackage o fl' w n).1 m = skipB (stepPackage o noFault wn n).1 m := by
      intro m hm
      rw [step_skipB_ne o fl' w n m hm, step_skipB_ne o noFault wn n m hm]
      exact hsk m
    cases hf : o.fetch n with
    | err =>
      rw [step_err o fl' w n hw hf, step_err o noFault wn n hskn hf]
      refine ⟨rfl, hfs, ?_⟩
      intro m
      by_cases hm : m = n
      · subst hm
        unfold skipB
        dsimp
        rw [clonedB_terminalWrite fl' w.store m _ (by simp) hwc,
          clonedB_terminalWrite noFault wn.store m _ (by simp) hnc]
        simp [hwm, hnm]
      · have := hmn_side m hm
        rwa [step_err o fl' w n hw hf, step_err o noFault wn n hskn hf] at this
    | ok u =>
      cases u with
      | none =>
        rw [step_noUrl o fl' w n hw hf, step_noUrl o noFault wn n hskn hf]
        refine ⟨rfl, hfs, ?_⟩
        intro m
        by_cases hm : m = n
        · subst hm
          unfold skipB
          dsimp
          rw [clonedB_terminalWrite fl' w.store m _ (by simp) hwc,
            clonedB_terminalWrite noFault wn.store m _ (by simp) hnc]
          simp [hwm, hnm]
        · have := hmn_side m hm
          rwa [step_noUrl o fl' w n hw hf, step_noUrl o noFault wn n hskn hf] at this
      | some url =>
        cases hc : o.cloneOk url n with
        | true =>
          rw [step_cloneOk o fl' w n url hw hf hc,
            step_cloneOk o noFault wn n url hskn hf hc]
          refine ⟨rfl, by dsimp; rw [hfs], ?_⟩
          intro m
          by_cases hm : m = n
          · subst hm
            unfold skipB
            simp
          · have := hmn_side m hm
            rwa [step_cloneOk o fl' w n url hw hf hc,
              step_cloneOk o noFault wn n url hskn hf hc] at this
        | false =>
          rw [step_cloneFail o fl' w n url hw hf hc,
            step_cloneFail o noFault wn n url hskn hf hc]
          refine ⟨rfl, by dsimp; rw [hfs], ?_⟩
          intro m
          by_cases hm : m = n
          · subst hm
            unfold skipB
            dsimp
            rw [clonedB_pendingThen fl' w.store m url _ (by simp) hwc,
              clonedB_pendingThen noFault wn.store m url _ (by simp) hnc]
            cases o.cloneLeftover url m <;> simp [hwm, hnm]
          · have := hmn_side m hm
            rwa [step_cloneFail o fl' w n url hw hf hc,
              step_cloneFail o noFault wn n url hskn hf hc] at this

/-- Whole-run version of `step_par`: under write faults only, the run
emits exactly the events of the fault-free run and ends with the same
destination directories. -/
theorem runAux_par (o : Oracle) (fl : Nat → Faults)
    (hfl : ∀ j, (fl j).readFail = false) :
    ∀ (l : List String) (i : Nat) (w wn : World),
      w.fs = wn.fs → (∀ m, skipB w m = skipB wn m) →
      (runAux o fl l i w).2.1 = (runAux o noFaults l i wn).2.1
      ∧ (runAux o fl l i w).1.fs = (runAux o noFaults l i wn).1.fs := by
  intro l
  induction l with
  | nil => intro i w wn hfs _; exact ⟨rfl, hfs⟩
  | cons n rest ih =>
    intro i w wn hfs hsk
    obtain ⟨hev, hfs', hsk'⟩ := step_par o (fl i) n w wn hfs hsk
    rw [runAux_cons_events o fl n rest i w (hfl i),
      runAux_cons_events o noFaults n rest i wn rfl,
      runAux_cons_world o fl n rest i w (hfl i),
      runAux_cons_world o noFaults n rest i wn rfl]
    obtain ⟨ih1, ih2⟩ := ih (i + 1) _ _ hfs' hsk'
    refine ⟨?_, ih2⟩
    rw [hev, ih1]
    rfl

/-! ### Retry of failed packages -/

/-- A package recorded `cloned` keeps its row through the rest of any
run. -/
theorem runAux_cloned_frame (o : Oracle) (fl : Nat → Faults) (n : String)
    (l : List String) (i : Nat) (w : World)
    (h : clonedB w.store n = true) :
    (runAux o fl l i w).1.store n = w.store n :=
  (runAux_skipB_frame o fl n l i w ((skipB_eq_true_iff w n).mpr (Or.inl h))).1

/-- A fault-free run over an index containing `n`, starting with a
row for `n` in one of the retried terminal statuses (`failed`,
`no_repo`, or `metadata_error`) and no destination directory for `n`,
re-fetches `n`, re-attempts the clone, and — the oracle now granting
the clone — ends with `n` recorded `cloned`. -/
theorem runAux_retry_failed (o : Oracle) (n url : String)
    (hf : o.fetch n = FetchOutcome.ok (some url))
    (hc : o.cloneOk url n = true) :
    ∀ (l : List String) (i : Nat) (w : World),
      (∃ e, w.store n = some e
        ∧ (e.status = Status.failed ∨ e.status = Status.noRepo
            ∨ e.status = Status.metadataError)) →
      n ∉ w.fs → n ∈ l →
      Event.fetch n ∈ (runAux o noFaults l i w).2.1
      ∧ Event.cloneAttempt n url ∈ (runAux o noFaults l i w).2.1
      ∧ (runAux o noFaults l i w).1.store n = some ⟨some url, Status.cloned⟩ := by
  intro l
  induction l with
  | nil => intro i w _ _ hmem; cases hmem
  | cons m rest ih =>
    intro i w hst hnm hmem
    rw [runAux_cons_events o noFaults m rest i w rfl,
      runAux_cons_world o noFaults m rest i w rfl]
    by_cases hm : m = n
    · subst hm
      obtain ⟨e0, hr, hP⟩ := hst
      have hskf : skipB w m = false := by
        rw [skipB_eq_false_iff]
        refine ⟨?_, hnm⟩
        rw [clonedB_eq_false_iff]
        intro e he
        rw [hr] at he
        cases he
        rcases hP with h | h | h <;> (rw [h]; simp)
      rw [step_cloneOk o (noFaults i) w m url hskf hf hc]
      have hcl : clonedB (pendingThen (noFaults i) w.store m url Status.cloned) m
          = true := by
        rw [clonedB_true_iff]
        exact ⟨_, pendingThen_ok_self (noFaults i) rfl rfl w.store m url _, rfl⟩
      have hframe := runAux_cloned_frame o noFaults m rest (i + 1)
        ({ store := pendingThen (noFaults i) w.store m url Status.cloned,
           fs := w.fs ++ [m] }) hcl
      refine ⟨by simp, by simp, ?_⟩
      rw [hframe]
      exact pendingThen_ok_self (noFaults i) rfl rfl w.store m url _
    · have hmem' : n ∈ rest := by
        rcases List.mem_cons.mp hmem with hx | hx
        · exact absurd hx.symm hm
        · exact hx
      have hne : n ≠ m := fun q => hm q.symm
      have hst' : ∃ e, (stepPackage o (noFaults i) w m).1.store n = some e
          ∧ (e.status = Status.failed ∨ e.status = Status.noRepo
              ∨ e.status = Status.metadataError) := by
        rw [step_store_ne o (noFaults i) w m n hne]
        exact hst
      have hnm' : n ∉ (stepPackage o (noFaults i) w m).1.fs := by
        intro hx
        rcases step_fs_sub o (noFaults i) w m n hx with hx | hx
        · exact hnm hx
        · exact hne hx
      obtain ⟨ih1, ih2, ih3⟩ := ih (i + 1) _ hst' hnm' hmem'
      exact ⟨List.mem_append_right _ ih1, List.mem_append_right _ ih2, ih3⟩

/-! ### The repository-presence invariant -/

theorem repoInv_step (o : Oracle) (fl : Faults) (w : World) (n : String)
    (hp : fl.pendingFail = false) (ht : fl.terminalFail = false)
    (h : RepoInv w.store) : RepoInv (stepPackage o fl w n).1.store := by
  intro m e he hpc
  by_cases hm : m = n
  · subst hm
    by_cases hsk : skipB w m
    · rw [step_skip o fl w m hsk] at he
      exact h m e he hpc
    · rw [Bool.not_eq_true] at hsk
      cases hf : o.fetch m with
      | err =>
        rw [step_err o fl w m hsk hf] at he
        dsimp at he
        rw [terminalWrite_ok fl ht, upsertStatusKeepRepo_self] at he
        cases he
        rcases hpc with hpc | hpc <;> revert hpc <;> cases w.store m <;> simp
      | ok u =>
        cases u with
        | none =>
          rw [step_noUrl o fl w m hsk hf] at he
          dsimp at he
          rw [terminalWrite_ok fl ht, upsertStatusKeepRepo_self] at he
          cases he
          rcases hpc with hpc | hpc <;> revert hpc <;> cases w.store m <;> simp
        | some url =>
          cases hc : o.cloneOk url m with
          | true =>
            rw [step_cloneOk o fl w m url hsk hf hc] at he
            dsimp at he
            rw [pendingThen_ok_self fl hp ht] at he
            cases he
            simp
          | false =>
            rw [step_cloneFail o fl w m url hsk hf hc] at he
            dsimp at he
            rw [pendingThen_ok_self fl hp ht] at he
            cases he
            simp
  · rw [step_store_ne o fl w n m hm] at he
    exact h m e he hpc

theorem runAux_repoInv (o : Oracle) (fl : Nat → Faults)
    (hfl : ∀ j, (fl j).pendingFail = false ∧ (fl j).terminalFail = false) :
    ∀ (l : List String) (i : Nat) (w : World), RepoInv w.store →
      RepoInv (runAux o fl l i w).1.store := by
  intro l
  induction l with
  | nil => intro i w h; exact h
  | cons n rest ih =>
    intro i w h
    cases hr : (fl i).readFail with
    | true => rw [runAux_cons_abort o fl n rest i w hr]; exact h
    | false =>
      rw [runAux_cons_world o fl n rest i w hr]
      exact ih (i + 1) _ (repoInv_step o (fl i) w n (hfl i).1 (hfl i).2 h)

/-! ### The no-repository outcome -/

theorem noRepoRecorded_step (o : Oracle) (w : World) (n m : String)
    (hf : o.fetch n = FetchOutcome.ok none)
    (h : NoRepoRecorded w n) :
    NoRepoRecorded (stepPackage o noFault w m).1 n
    ∧ ∀ url, Event.cloneAttempt n url ∉ (stepPackage o noFault w m).2 := by
  obtain ⟨⟨e, he, hest⟩, hnm⟩ := h
  by_cases hm : m = n
  · subst hm
    by_cases hsk : skipB w m
    · rw [step_skip o noFault w m hsk]
      exact ⟨⟨⟨e, he, hest⟩, hnm⟩, by simp⟩
    · rw [Bool.not_eq_true] at hsk
      rw [step_noUrl o noFault w m hsk hf]
      refine ⟨⟨?_, hnm⟩, by simp⟩
      dsimp
      rw [terminalWrite_ok noFault rfl]
      exact upsertStatusKeepRepo_self_status w.store m _
  · have hne : n ≠ m := fun q => hm q.symm
    refine ⟨⟨?_, ?_⟩, ?_⟩
    · rw [step_store_ne o noFault w m n hne]
      exact ⟨e, he, hest⟩
    · intro hx
      rcases step_fs_sub o noFault w m n hx with hx | hx
      · exact hnm hx
      · exact hne hx
    · intro url hx
      have := step_events_name o noFault w m _ hx
      exact hne this

theorem runAux_noRepoRecorded (o : Oracle) (n : String)
    (hf : o.fetch n = FetchOutcome.ok none) :
    ∀ (l : List String) (i : Nat) (w : World), NoRepoRecorded w n →
      NoRepoRecorded (runAux o noFaults l i w).1 n
      ∧ ∀ url, Event.cloneAttempt n url ∉ (runAux o noFaults l i w).2.1 := by
  intro l
  induction l with
  | nil => intro i w h; exact ⟨h, by simp [runAux_nil]⟩
  | cons m rest ih =>
    intro i w h
    rw [runAux_cons_world o noFaults m rest i w rfl,
      runAux_cons_events o noFaults m rest i w rfl]
    obtain ⟨h', hev⟩ := noRepoRecorded_step o w n m hf h
    obtain ⟨ih1, ih2⟩ := ih (i + 1) _ h'
    refine ⟨ih1, ?_⟩
    intro url hx
    rcases List.mem_append.mp hx with hx | hx
    · exact hev url hx
    · exact ih2 url hx

/-- A fault-free run over an index containing `n`, whose metadata for
`n` reports no repository URL, starting with `n` not skippable:
`n` is fetched, never cloned, ends recorded `no_repo`, and no
destination directory for `n` is created. -/
theorem runAux_noRepo (o : Oracle) (n : String)
    (hf : o.fetch n = FetchOutcome.ok none) :
    ∀ (l : List String) (i : Nat) (w : World),
      clonedB w.store n = false → n ∉ w.fs → n ∈ l →
      Event.fetch n ∈ (runAux o noFaults l i w).2.1
      ∧ (∀ url, Event.cloneAttempt n url ∉ (runAux o noFaults l i w).2.1)
      ∧ NoRepoRecorded (runAux o noFaults l i w).1 n := by
  intro l
  induction l with
  | nil => intro i w _ _ hmem; cases hmem
  | cons m rest ih =>
    intro i w hcl hnm hmem
    rw [runAux_cons_events o noFaults m rest i w rfl,
      runAux_cons_world o noFaults m rest i w rfl]
    by_cases hm : m = n
    · subst hm
      have hskf : skipB w m = false := (skipB_eq_false_iff w m).mpr ⟨hcl, hnm⟩
      rw [step_noUrl o (noFaults i) w m hskf hf]
      have hq : NoRepoRecorded
          ({ w with store := terminalWrite (noFaults i) w.store m Status.noRepo }) m := by
        refine ⟨?_, hnm⟩
        dsimp
        rw [terminalWrite_ok (noFaults i) rfl]
        exact upsertStatusKeepRepo_self_status w.store m _
      obtain ⟨hq', hev⟩ := runAux_noRepoRecorded o m hf rest (i + 1) _ hq
      refine ⟨by simp, ?_, hq'⟩
      intro url hx
      rcases List.mem_append.mp hx with hx | hx
      · simp at hx
      · exact hev url hx
    · have hne : n ≠ m := fun q => hm q.symm
      have hcl' : clonedB (stepPackage o (noFaults i) w m).1.store n = false := by
        rw [clonedB_congr _ w.store n (step_store_ne o (noFaults i) w m n hne)]
        exact hcl
      have hnm' : n ∉ (stepPackage o (noFaults i) w m).1.fs := by
        intro hx
        rcases step_fs_sub o (noFaults i) w m n hx with hx | hx
        · exact hnm hx
        · exact hne hx
      have hmem' : n ∈ rest := by
        rcases List.mem_cons.mp hmem with hx | hx
        · exact absurd hx.symm hm
        · exact hx
      obtain ⟨ih1, ih2, ih3⟩ := ih (i + 1) _ hcl' hnm' hmem'
      refine ⟨List.mem_append_right _ ih1, ?_, ih3⟩
      intro url hx
      rcases List.mem_append.mp hx with hx | hx
      · have := step_events_name o (noFaults i) w m _ hx
        exact hne this
      · exact ih2 url hx

/-! ### The rate limiter -/

theorem startTime_lower (d : Nat) (arrive : Nat → Nat) :
    ∀ k, startTime d arrive 0 + k * d ≤ startTime d arrive k := by
  intro k
  induction k with
  | zero => simp
  | succ k ih =>
    calc startTime d arrive 0 + (k + 1) * d
        = (startTime d arrive 0 + k * d) + d := by ring
      _ ≤ startTime d arrive k + d := Nat.add_le_add_right ih d
      _ ≤ startTime d arrive (k + 1) := Nat.le_max_right _ _

/-! ## The claims -/

/-- C1: a package whose stored status is `cloned`, or whose destination
path already exists on disk, is skipped entirely by the run: no
metadata fetch or clone attempt is issued for it, and its state-store
row is neither created nor modified. -/
theorem claim_c1_skip_entirely (o : Oracle) (fl : Nat → Faults)
    (index : List String) (w0 : World) (n : String)
    (h : clonedB w0.store n = true ∨ n ∈ w0.fs) :
    (∀ e ∈ (run o fl index w0).2.1, eventName e ≠ n)
    ∧ (run o fl index w0).1.store n = w0.store n := by
  have hsk : skipB w0 n = true := (skipB_eq_true_iff w0 n).mpr h
  obtain ⟨h1, _, h3⟩ := runAux_skipB_frame o fl n index 0 w0 hsk
  exact ⟨h3, h1⟩

/-- Witness for C1 at a concrete input: `"a"` is stored `cloned`, so
the run over `["a", "b"]` emits no event for `"a"` and leaves its
row unchanged. -/
theorem witness_c1_skip_entirely :
    (∀ e ∈ (run oracleFetchErr noFaults ["a", "b"] worldCloneda).2.1,
      eventName e ≠ "a")
    ∧ (run oracleFetchErr noFaults ["a", "b"] worldCloneda).1.store "a"
      = worldCloneda.store "a" :=
  claim_c1_skip_entirely oracleFetchErr noFaults ["a", "b"] worldCloneda "a"
    (Or.inl (by decide))

/-- C2: with a fixed metadata/clone oracle and fault-free store
operations, running the engine a second time leaves the state store
identical, the second run completes, and no package that ended the
first run with status `cloned` triggers a second fetch or clone. -/
theorem claim_c2_idempotence (o : Oracle) (index : List String) (w0 : World) :
    (run o noFaults index (run o noFaults index w0).1).1.store
      = (run o noFaults index w0).1.store
    ∧ (run o noFaults index (run o noFaults index w0).1).2.2 = true
    ∧ ∀ n, clonedB (run o noFaults index w0).1.store n = true →
        ∀ e ∈ (run o noFaults index (run o noFaults index w0).1).2.1,
          eventName e ≠ n := by
  have hstable : ∀ m ∈ index, StableP o (run o noFaults index w0).1 m :=
    fun m hm => runAux_stable_all o index 0 w0 m hm
  obtain ⟨hin, hev⟩ :=
    runAux_inert o index 0 (run o noFaults index w0).1 hstable
  refine ⟨congrArg World.store hin,
    runAux_completes o noFaults (fun _ => rfl) index 0 _, ?_⟩
  intro n hn e he hq
  have hskf := hev e he
  rw [hq] at hskf
  have hskt : skipB (run o noFaults index w0).1 n = true :=
    (skipB_eq_true_iff _ n).mpr (Or.inl hn)
  rw [hskt] at hskf
  cases hskf

/-- Witness for C2 at a concrete input. -/
theorem witness_c2_idempotence :
    (run oracleOkClone noFaults ["a"]
        (run oracleOkClone noFaults ["a"] emptyWorld).1).1.store
      = (run oracleOkClone noFaults ["a"] emptyWorld).1.store
    ∧ (run oracleOkClone noFaults ["a"]
        (run oracleOkClone noFaults ["a"] emptyWorld).1).2.2 = true
    ∧ ∀ n, clonedB (run oracleOkClone noFaults ["a"] emptyWorld).1.store n = true →
        ∀ e ∈ (run oracleOkClone noFaults ["a"]
            (run oracleOkClone noFaults ["a"] emptyWorld).1).2.1,
          eventName e ≠ n :=
  claim_c2_idempotence oracleOkClone ["a"] emptyWorld

/-- C3 counterexample: not only index-refresh failure aborts the run.
A state-store failure on the skip-check read of `"b"` (the `?` on the
status query in the source) aborts the whole run: nothing is recorded,
no event is emitted, and `"c"` is never processed — contradicting
"every per-package failure is recorded and processing unconditionally
continues". -/
theorem cex_c3_read_failure_aborts :
    (run oracleFetchErr faultsReadFail0 ["b", "c"] emptyWorld).2.2 = false
    ∧ (run oracleFetchErr faultsReadFail0 ["b", "c"] emptyWorld).2.1 = []
    ∧ (run oracleFetchErr faultsReadFail0 ["b", "c"] emptyWorld).1.store "b" = none
    ∧ (run oracleFetchErr faultsReadFail0 ["b", "c"] emptyWorld).1.store "c"
      = none := by
  decide

/-- C3 amended: metadata fetch errors, clone errors and state-store
write failures are isolated and processing continues through every
package of the index (the run completes); only a state-store read
failure during a skip check (besides index-refresh failure) aborts the
run. -/
theorem claim_c3_amended_isolation (o : Oracle) (fl : Nat → Faults)
    (index : List String) (w0 : World)
    (h : ∀ j, (fl j).readFail = false) :
    (run o fl index w0).2.2 = true :=
  runAux_completes o fl h index 0 w0

/-- Witness for the amended C3: even with every store write failing,
the run over two packages completes. -/
theorem witness_c3_amended_isolation :
    (run oracleFetchErr faultsAllWritesFail ["a", "b"] emptyWorld).2.2 = true :=
  claim_c3_amended_isolation oracleFetchErr faultsAllWritesFail ["a", "b"]
    emptyWorld (fun _ => rfl)

/-- C4 counterexample: a package that ended a run `failed` is NOT
always re-fetched on the next run.  Here the failed clone left a
partial destination directory behind; the next run — whose clone
oracle now succeeds — skips `"a"` (no fetch event at all) and leaves
it `failed`. -/
theorem cex_c4_leftover_blocks_retry :
    (run oracleFailLeftover noFaults ["a"] emptyWorld).1.store "a"
      = some ⟨some "u", Status.failed⟩
    ∧ (run oracleOkClone noFaults ["a"]
        (run oracleFailLeftover noFaults ["a"] emptyWorld).1).2.1 = []
    ∧ (run oracleOkClone noFaults ["a"]
        (run oracleFailLeftover noFaults ["a"] emptyWorld).1).1.store "a"
      = some ⟨some "u", Status.failed⟩ := by
  decide

/-- C4 amended: a package whose stored status is `failed` — and
likewise `no_repo` or `metadata_error` — and whose destination
directory does not exist on disk is not skipped by the next
(fault-free) run: it is re-fetched and its clone re-attempted, and
since the clone oracle now succeeds it ends that run recorded
`cloned`. -/
theorem claim_c4_amended_retry (o2 : Oracle) (index : List String)
    (w1 : World) (n url : String)
    (hst : ∃ e, w1.store n = some e
      ∧ (e.status = Status.failed ∨ e.status = Status.noRepo
          ∨ e.status = Status.metadataError))
    (hfs : n ∉ w1.fs) (hmem : n ∈ index)
    (hf : o2.fetch n = FetchOutcome.ok (some url))
    (hc : o2.cloneOk url n = true) :
    Event.fetch n ∈ (run o2 noFaults index w1).2.1
    ∧ Event.cloneAttempt n url ∈ (run o2 noFaults index w1).2.1
    ∧ (run o2 noFaults index w1).1.store n = some ⟨some url, Status.cloned⟩ :=
  runAux_retry_failed o2 n url hf hc index 0 w1 hst hfs hmem

/-- Witness for the amended C4 at a concrete input. -/
theorem witness_c4_amended_retry :
    Event.fetch "a" ∈ (run oracleOkClone noFaults ["a"] worldFaileda).2.1
    ∧ Event.cloneAttempt "a" "u"
      ∈ (run oracleOkClone noFaults ["a"] worldFaileda).2.1
    ∧ (run oracleOkClone noFaults ["a"] worldFaileda).1.store "a"
      = some ⟨some "u", Status.cloned⟩ :=
  claim_c4_amended_retry oracleOkClone ["a"] worldFaileda "a" "u"
    ⟨⟨some "u", Status.failed⟩, by decide, Or.inl (by decide)⟩
    (by decide) (by decide) (by decide) (by decide)

/-- C5 counterexample: the post-clone status write is a plain
`UPDATE ... WHERE name`, so on an absent row it creates nothing:
after `setStatus` on the empty store the store still has no entry —
contradicting "creating the entry if it was absent". -/
theorem cex_c5_update_creates_nothing :
    updateStatus (fun _ => none) "a" Status.cloned "a" = none := by
  decide

/-- C5 amended: the post-clone status writes (`cloned`/`failed`) set
the status of an existing row, keep its repository, leave the store
unchanged when the row is absent, and are idempotent; the
metadata-outcome writes (`no_repo`/`metadata_error`) do create the row
if absent, record the given status, and are idempotent. -/
theorem claim_c5_amended_set_status (s : Store) (n : String) (st : Status)
    (e : Entry) (he : s n = some e) :
    updateStatus s n st n = some ⟨e.repository, st⟩
    ∧ (∀ t : Store, t n = none → updateStatus t n st = t)
    ∧ (∀ t : Store,
        updateStatus (updateStatus t n st) n st = updateStatus t n st)
    ∧ (∀ t : Store, ∃ e', upsertStatusKeepRepo t n st n = some e'
        ∧ e'.status = st)
    ∧ (∀ t : Store,
        upsertStatusKeepRepo (upsertStatusKeepRepo t n st) n st
          = upsertStatusKeepRepo t n st) := by
  refine ⟨?_, ?_, ?_, ?_, ?_⟩
  · rw [updateStatus_self, he]
    rfl
  · intro t ht
    funext m
    by_cases hm : m = n
    · subst hm
      rw [updateStatus_self, ht]
      rfl
    · exact updateStatus_ne t n st m hm
  · intro t
    funext m
    by_cases hm : m = n
    · subst hm
      rw [updateStatus_self, updateStatus_self]
      cases t m <;> rfl
    · rw [updateStatus_ne _ n st m hm, updateStatus_ne t n st m hm]
  · intro t
    exact upsertStatusKeepRepo_self_status t n st
  · intro t
    funext m
    by_cases hm : m = n
    · subst hm
      rw [upsertStatusKeepRepo_self, upsertStatusKeepRepo_self]
      cases t m <;> rfl
    · rw [upsertStatusKeepRepo_ne _ n st m hm,
        upsertStatusKeepRepo_ne t n st m hm]

/-- Witness for the amended C5 at a concrete input. -/
theorem witness_c5_amended_set_status :
    updateStatus storePendinga "a" Status.cloned "a"
      = some ⟨some "u", Status.cloned⟩
    ∧ (∀ t : Store, t "a" = none → updateStatus t "a" Status.cloned = t)
    ∧ (∀ t : Store,
        updateStatus (updateStatus t "a" Status.cloned) "a" Status.cloned
          = updateStatus t "a" Status.cloned)
    ∧ (∀ t : Store, ∃ e', upsertStatusKeepRepo t "a" Status.cloned "a" = some e'
        ∧ e'.status = Status.cloned)
    ∧ (∀ t : Store,
        upsertStatusKeepRepo (upsertStatusKeepRepo t "a" Status.cloned) "a"
            Status.cloned
          = upsertStatusKeepRepo t "a" Status.cloned) :=
  claim_c5_amended_set_status storePendinga "a" Status.cloned
    ⟨some "u", Status.pending⟩ (by decide)

/-- C6: store write failures never change the control flow: with the
same oracle, a run whose writes fail arbitrarily (reads succeeding)
emits exactly the events of the fault-free run — same fetches, same
clone attempts, in the same order — creates the same destination
directories, and completes. -/
theorem claim_c6_write_failures_harmless (o : Oracle) (fl : Nat → Faults)
    (index : List String) (w0 : World)
    (h : ∀ j, (fl j).readFail = false) :
    (run o fl index w0).2.1 = (run o noFaults index w0).2.1
    ∧ (run o fl index w0).1.fs = (run o noFaults index w0).1.fs
    ∧ (run o fl index w0).2.2 = true := by
  obtain ⟨h1, h2⟩ := runAux_par o fl h index 0 w0 w0 rfl (fun _ => rfl)
  exact ⟨h1, h2, runAux_completes o fl h index 0 w0⟩

/-- Witness for C6 at a concrete input: with every write failing, the
run behaves (events, directories, completion) exactly like the
fault-free run. -/
theorem witness_c6_write_failures_harmless :
    (run oracleOkClone faultsAllWritesFail ["a", "b"] emptyWorld).2.1
      = (run oracleOkClone noFaults ["a", "b"] emptyWorld).2.1
    ∧ (run oracleOkClone faultsAllWritesFail ["a", "b"] emptyWorld).1.fs
      = (run oracleOkClone noFaults ["a", "b"] emptyWorld).1.fs
    ∧ (run oracleOkClone faultsAllWritesFail ["a", "b"] emptyWorld).2.2 = true :=
  claim_c6_write_failures_harmless oracleOkClone faultsAllWritesFail
    ["a", "b"] emptyWorld (fun _ => rfl)

/-- C7 counterexample: a store state reachable by the engine's own
writes violates the invariant.  Run 1 records `"a"` as
`metadata_error` (repository NULL); in run 2 the metadata now has a
URL, the pending upsert FAILS (ignored by `.ok()`), the clone
succeeds, and the `UPDATE ... SET status='cloned'` lands on the old
row: status `cloned` with absent repository. -/
theorem cex_c7_cloned_without_repo :
    (run oracleOkClone faultsPendingFail ["a"]
        (run oracleFetchErr noFaults ["a"] emptyWorld).1).1.store "a"
      = some ⟨none, Status.cloned⟩ := by
  decide

/-- C7 amended: in every run whose store writes all succeed, the
invariant is preserved: if initially every `pending` or `cloned` row
has a repository, the same holds of the final store. -/
theorem claim_c7_amended_repo_invariant (o : Oracle) (fl : Nat → Faults)
    (index : List String) (w0 : World)
    (hfl : ∀ j, (fl j).pendingFail = false ∧ (fl j).terminalFail = false)
    (h0 : RepoInv w0.store) : RepoInv (run o fl index w0).1.store :=
  runAux_repoInv o fl hfl index 0 w0 h0

/-- Witness for the amended C7 at a concrete input. -/
theorem witness_c7_amended_repo_invariant :
    RepoInv (run oracleOkClone noFaults ["a"] emptyWorld).1.store :=
  claim_c7_amended_repo_invariant oracleOkClone noFaults ["a"] emptyWorld
    (fun _ => ⟨rfl, rfl⟩) (fun _ _ h _ => Option.noConfusion h)

/-- C8: a package that is not skipped and whose metadata reports no
repository URL is fetched, never cloned, ends the (fault-free) run
recorded `no_repo`, and no destination directory is created for it. -/
theorem claim_c8_no_repo_outcome (o : Oracle) (index : List String)
    (w0 : World) (n : String)
    (hf : o.fetch n = FetchOutcome.ok none)
    (hcl : clonedB w0.store n = false) (hfs : n ∉ w0.fs) (hmem : n ∈ index) :
    Event.fetch n ∈ (run o noFaults index w0).2.1
    ∧ (∀ url, Event.cloneAttempt n url ∉ (run o noFaults index w0).2.1)
    ∧ (∃ e, (run o noFaults index w0).1.store n = some e
        ∧ e.status = Status.noRepo)
    ∧ n ∉ (run o noFaults index w0).1.fs := by
  obtain ⟨h1, h2, h3⟩ := runAux_noRepo o n hf index 0 w0 hcl hfs hmem
  exact ⟨h1, h2, h3.1, h3.2⟩

/-- Witness for C8 at a concrete input. -/
theorem witness_c8_no_repo_outcome :
    Event.fetch "a" ∈ (run oracleNoUrl noFaults ["a"] emptyWorld).2.1
    ∧ (∀ url, Event.cloneAttempt "a" url
        ∉ (run oracleNoUrl noFaults ["a"] emptyWorld).2.1)
    ∧ (∃ e, (run oracleNoUrl noFaults ["a"] emptyWorld).1.store "a" = some e
        ∧ e.status = Status.noRepo)
    ∧ "a" ∉ (run oracleNoUrl noFaults ["a"] emptyWorld).1.fs :=
  claim_c8_no_repo_outcome oracleNoUrl ["a"] emptyWorld "a"
    (by decide) (by decide) (by decide) (by decide)

/-- C9: the post-clone status writes and the conflict branch of the
metadata-outcome writes modify only the status field of the processed
name's row — its repository keeps its previous value — and rows of
every other name are unchanged. -/
theorem claim_c9_status_only_frame (s : Store) (n m : String) (st : Status)
    (e : Entry) (hm : m ≠ n) (he : s n = some e) :
    updateStatus s n st n = some ⟨e.repository, st⟩
    ∧ updateStatus s n st m = s m
    ∧ upsertStatusKeepRepo s n st n = some ⟨e.repository, st⟩
    ∧ upsertStatusKeepRepo s n st m = s m := by
  refine ⟨?_, updateStatus_ne s n st m hm, ?_,
    upsertStatusKeepRepo_ne s n st m hm⟩
  · rw [updateStatus_self, he]
    rfl
  · rw [upsertStatusKeepRepo_self, he]

/-- Witness for C9 at a concrete input. -/
theorem witness_c9_status_only_frame :
    updateStatus storePendinga "a" Status.cloned "a"
      = some ⟨some "u", Status.cloned⟩
    ∧ updateStatus storePendinga "a" Status.cloned "b" = storePendinga "b"
    ∧ upsertStatusKeepRepo storePendinga "a" Status.cloned "a"
      = some ⟨some "u", Status.cloned⟩
    ∧ upsertStatusKeepRepo storePendinga "a" Status.cloned "b"
      = storePendinga "b" :=
  claim_c9_status_only_frame storePendinga "a" "b" Status.cloned
    ⟨some "u", Status.pending⟩ (by decide) (by decide)

/-- C10: with the rate limiter enforcing the configured delay between
the starts of consecutive metadata requests, N consecutive fetches
span wall-clock time at least (N − 1) times the delay: the last start
is at least the first start plus (N − 1) · delay, whatever the
per-request issue times. -/
theorem claim_c10_rate_bound (d : Nat) (arrive : Nat → Nat) (N : Nat) :
    startTime d arrive 0 + (N - 1) * d ≤ startTime d arrive (N - 1) :=
  startTime_lower d arrive (N - 1)

end Bugbot
